import Mathlib

/-!
Verification of the simplex lattice design engine.

The repository contains two variants of the same calculation engine:

* Variant A: `calculate_design` inside `simplex_lattice_design_v69_6`
  (src/simplex_lattice_design/main.py);
* Variant B: `calculate_design` inside `simplex_lattice_design_v73_5`
  (src/simplex_lattice_design_v73_5/simplex_lattice_design_v73_5.py).

Both are embedded below over exact rational arithmetic.  Python dicts have
distinct keys, so ingredient names are distinct and `component_names.index(name)`
for the k-th name is k; the embedding therefore works positionally over the
ordered ingredient list.  After the solvent-count validation at most one
ingredient carries `is_solvent = True`, so the component named by
`solvent_component_name` is exactly the component whose own flag is set, and
membership in `calc_names` is equivalent to the flag being false.
-/

namespace SimplexDesign

/-- One ingredient, as read from `component_data` in both variants:
`product_active_wt_perc`, `maximum_active_wt_perc`, `density`, `is_solvent`. -/
structure Ingredient where
  purityPct : ℚ
  maxActivePct : ℚ
  density : ℚ
  isSolvent : Bool
deriving DecidableEq

/-- Source: `product_purity_map[name] = p_act / 100.0`. -/
def purityFrac (c : Ingredient) : ℚ := c.purityPct / 100

/-- Source: `max_active_map[name] = m_act / 100.0`. -/
def maxActiveFrac (c : Ingredient) : ℚ := c.maxActivePct / 100

/-!  ### Lattice generation

`itertools.product(range(degree_m + 1), repeat=n)` enumerates, in lexicographic
order with the leftmost position most significant, all n-tuples with entries in
`0 .. degree_m`; the loop keeps those whose entries sum to `degree_m`.
-/

/-- All n-tuples over `0 .. m`, in the order `itertools.product` emits them. -/
def tuples (m : ℕ) : ℕ → List (List ℕ)
  | 0 => [[]]
  | n + 1 => (List.range (m + 1)).flatMap fun k => (tuples m n).map (fun t => k :: t)

/-- The lattice loop filter: `if sum(p_tuple) == degree_m`. -/
def lattice (m n : ℕ) : List (List ℕ) := (tuples m n).filter (fun t => t.sum = m)

/-- Source: `z = [x / degree_m for x in p_tuple]`. -/
def zOf (m : ℕ) (t : List ℕ) : List ℚ := t.map (fun k : ℕ => (k : ℚ) / (m : ℚ))

/-!  ### Mass balance

Per composition vector z, both variants first compute the non-solvent product
masses, their sum `sum_partial_mass`, and (variant A) `extra_solvent_mass`;
when a solvent is designated its mass is the remainder
`total_formula_mass - sum_partial_mass`.
-/

/-- Source: `prod_mass = target_active / purity if purity > 0 else 0`, with
`target_active = (z[idx] * max_active_map[name]) * total_formula_mass`. -/
def nonSolventMass (total : ℚ) (c : Ingredient) (zi : ℚ) : ℚ :=
  if 0 < purityFrac c then zi * maxActiveFrac c * total / purityFrac c else 0

/-- Source `sum_partial_mass`: the sum of the non-solvent product masses. -/
def sumNonSolventMass (total : ℚ) (cfg : List Ingredient) (z : List ℚ) : ℚ :=
  (((cfg.zip z).filter (fun p => !p.1.isSolvent)).map
    (fun p => nonSolventMass total p.1 p.2)).sum

/-- Source `extra_solvent_mass`: the impurity mass of the non-solvent ingredients. -/
def extraSolventMass (total : ℚ) (cfg : List Ingredient) (z : List ℚ) : ℚ :=
  (((cfg.zip z).filter (fun p => !p.1.isSolvent)).map
    (fun p => nonSolventMass total p.1 p.2 * (1 - purityFrac p.1))).sum

/-- Whether some ingredient is flagged `is_solvent` (so that
`solvent_component_name` is not `None`). -/
def hasSolvent (cfg : List Ingredient) : Bool := cfg.any (·.isSolvent)

/-- Source: `req_solvent_mass = total_formula_mass - sum_partial_mass`. -/
def reqSolventMass (total : ℚ) (cfg : List Ingredient) (z : List ℚ) : ℚ :=
  total - sumNonSolventMass total cfg z

/-- Source `temp_product_masses[name]` for one component: the remainder for the
solvent, the purity-scaled target otherwise. -/
def productMass (total : ℚ) (cfg : List Ingredient) (z : List ℚ)
    (c : Ingredient) (zi : ℚ) : ℚ :=
  if c.isSolvent then reqSolventMass total cfg z else nonSolventMass total c zi

/-- The recorded product masses, in component order. -/
def productMasses (total : ℚ) (cfg : List Ingredient) (z : List ℚ) : List ℚ :=
  (cfg.zip z).map (fun p => productMass total cfg z p.1 p.2)

/-- Source: `(x / total_formula_mass) * 100.0 if total_formula_mass > 0 else 0`. -/
def wtPct (total x : ℚ) : ℚ := if 0 < total then x / total * 100 else 0

/-- Variant A active mass: `total_solvent_active` (own active plus the
non-solvent impurities) for the solvent component, `p_mass * purity`
otherwise. -/
def activeMassA (total : ℚ) (cfg : List Ingredient) (z : List ℚ)
    (c : Ingredient) (zi : ℚ) : ℚ :=
  if c.isSolvent then
    reqSolventMass total cfg z * purityFrac c + extraSolventMass total cfg z
  else nonSolventMass total c zi * purityFrac c

/-- Variant B `intrinsic_actives[name] = p_mass * purity`. -/
def intrinsicActive (total : ℚ) (cfg : List Ingredient) (z : List ℚ)
    (c : Ingredient) (zi : ℚ) : ℚ :=
  productMass total cfg z c zi * purityFrac c

/-- Variant B `impurities[name] = p_mass * (1.0 - purity)`, computed for every
ingredient including the solvent. -/
def impurityMass (total : ℚ) (cfg : List Ingredient) (z : List ℚ)
    (c : Ingredient) (zi : ℚ) : ℚ :=
  productMass total cfg z c zi * (1 - purityFrac c)

/-- Variant B `total_impurity_mass = sum(impurities.values())`. -/
def totalImpurityMass (total : ℚ) (cfg : List Ingredient) (z : List ℚ) : ℚ :=
  ((cfg.zip z).map (fun p => impurityMass total cfg z p.1 p.2)).sum

/-- Variant B active mass: intrinsic plus all impurities for the solvent,
intrinsic only otherwise. -/
def activeMassB (total : ℚ) (cfg : List Ingredient) (z : List ℚ)
    (c : Ingredient) (zi : ℚ) : ℚ :=
  if c.isSolvent then intrinsicActive total cfg z c zi + totalImpurityMass total cfg z
  else intrinsicActive total cfg z c zi

/-! ### Validity classification -/

/-- Variant A classifier: the mass-closure check first (its `elif` branch is a
no-op), then the active-limit check, which overrides the earlier reason. -/
def classifyA (total sumMass sumActiveWt : ℚ) : Bool × String :=
  let s1 : Bool × String :=
    if sumMass > total * 1.01 then (false, "Sum(Product) > Total Mass") else (true, "")
  if sumActiveWt > 100.01 then (false, "Sum(Active) > 100%") else s1

/-- Variant B classifier: mass-closure check, then the negative-solvent check
inside the under-mass branch, then the overriding active-limit check. -/
def classifyB (total sumMass : ℚ) (solventPresent : Bool) (solventMass : ℚ)
    (sumActiveWt : ℚ) : Bool × String :=
  let s1 : Bool × String :=
    if sumMass > total * 1.01 then (false, "Sum(Product) > Total Mass")
    else if sumMass < total * 0.99 ∧ solventPresent = true ∧ solventMass < 0 then
      (false, "Negative Solvent Required")
    else (true, "")
  if sumActiveWt > 100.01 then (false, "Sum(Active) > 100%") else s1

/-- One computed formula row.  The fields are shared by the two variants;
variant A computes no impurity column and leaves `impurities` empty. -/
structure FormulaRow where
  masses : List ℚ
  vols : List ℚ
  prodWts : List ℚ
  activeMs : List ℚ
  activeWts : List ℚ
  impurities : List ℚ
  sumMass : ℚ
  sumProdWt : ℚ
  sumActiveWt : ℚ
  valid : Bool
  reason : String
deriving DecidableEq

/-- Variant A row computation for one composition vector. -/
def mkRowA (total : ℚ) (cfg : List Ingredient) (z : List ℚ) : FormulaRow :=
  let pm := productMasses total cfg z
  let am := (cfg.zip z).map (fun p => activeMassA total cfg z p.1 p.2)
  let prodWts := pm.map (fun x => wtPct total x)
  let activeWts := am.map (fun x => wtPct total x)
  let sumMass := pm.sum
  let cl := classifyA total sumMass activeWts.sum
  { masses := pm
    vols := (cfg.zip z).map (fun p => productMass total cfg z p.1 p.2 / p.1.density)
    prodWts := prodWts
    activeMs := am
    activeWts := activeWts
    impurities := []
    sumMass := sumMass
    sumProdWt := prodWts.sum
    sumActiveWt := activeWts.sum
    valid := cl.1
    reason := cl.2 }

/-- Variant B row computation for one composition vector. -/
def mkRowB (total : ℚ) (cfg : List Ingredient) (z : List ℚ) : FormulaRow :=
  let pm := productMasses total cfg z
  let am := (cfg.zip z).map (fun p => activeMassB total cfg z p.1 p.2)
  let prodWts := pm.map (fun x => wtPct total x)
  let activeWts := am.map (fun x => wtPct total x)
  let sumMass := pm.sum
  let cl := classifyB total sumMass (hasSolvent cfg) (reqSolventMass total cfg z)
    activeWts.sum
  { masses := pm
    vols := (cfg.zip z).map (fun p => productMass total cfg z p.1 p.2 / p.1.density)
    prodWts := prodWts
    activeMs := am
    activeWts := activeWts
    impurities := (cfg.zip z).map (fun p => impurityMass total cfg z p.1 p.2)
    sumMass := sumMass
    sumProdWt := prodWts.sum
    sumActiveWt := activeWts.sum
    valid := cl.1
    reason := cl.2 }

/-! ### Pipeline: lattice loop, replication, numbering, validation, columns -/

/-- All variant A rows, in lattice order. -/
def rowsA (cfg : List Ingredient) (m : ℕ) (total : ℚ) : List FormulaRow :=
  (lattice m cfg.length).map (fun t => mkRowA total cfg (zOf m t))

/-- All variant B rows, in lattice order. -/
def rowsB (cfg : List Ingredient) (m : ℕ) (total : ℚ) : List FormulaRow :=
  (lattice m cfg.length).map (fun t => mkRowB total cfg (zOf m t))

/-- Source `valid_rows` of variant A. -/
def validRowsA (cfg : List Ingredient) (m : ℕ) (total : ℚ) : List FormulaRow :=
  (rowsA cfg m total).filter (fun r => r.valid)

/-- Source `removed_rows` of variant A. -/
def removedRowsA (cfg : List Ingredient) (m : ℕ) (total : ℚ) : List FormulaRow :=
  (rowsA cfg m total).filter (fun r => !r.valid)

/-- Source `valid_rows` of variant B. -/
def validRowsB (cfg : List Ingredient) (m : ℕ) (total : ℚ) : List FormulaRow :=
  (rowsB cfg m total).filter (fun r => r.valid)

/-- Source `removed_rows` of variant B. -/
def removedRowsB (cfg : List Ingredient) (m : ℕ) (total : ℚ) : List FormulaRow :=
  (rowsB cfg m total).filter (fun r => !r.valid)

/-- Source: `if replicate > 1: df_valid = pd.concat([df_valid] * replicate)`. -/
def applyReplicate (k : ℕ) (v : List FormulaRow) : List FormulaRow :=
  if 1 < k then (List.replicate k v).flatten else v

/-- Source: `df_valid.insert(0, "Formula Number", range(1, len(df_valid) + 1))`:
each row is paired with its 1-based position in the final order. -/
def numberRows (v : List FormulaRow) : List (ℕ × FormulaRow) :=
  List.enumFrom 1 v

/-- Abstraction of the ValueError messages `calculate_design` raises. -/
inductive ConfigError where
  | multipleSolvents
  | maxActiveAbovePurity
  | percentOutOfRange
  | nonPositiveDensity
deriving DecidableEq

/-- Source `solvent_count`. -/
def solventCount (cfg : List Ingredient) : ℕ := cfg.countP (·.isSolvent)

/-- Per-ingredient checks of variant A, in source order: max-active vs purity,
then density.  Variant A has no percentage-range check. -/
def checkIngredientA (c : Ingredient) : Except ConfigError Unit :=
  if c.maxActivePct > c.purityPct then .error .maxActiveAbovePurity
  else if c.density ≤ 0 then .error .nonPositiveDensity
  else .ok ()

/-- Per-ingredient checks of variant B, in source order: max-active vs purity,
then the percentage range check, then density. -/
def checkIngredientB (c : Ingredient) : Except ConfigError Unit :=
  if c.maxActivePct > c.purityPct then .error .maxActiveAbovePurity
  else if c.purityPct < 0 ∨ c.purityPct > 100 ∨ c.maxActivePct < 0 ∨ c.maxActivePct > 100
    then .error .percentOutOfRange
  else if c.density ≤ 0 then .error .nonPositiveDensity
  else .ok ()

/-- The per-ingredient validation loop: the first failing check raises. -/
def checkAll (chk : Ingredient → Except ConfigError Unit) :
    List Ingredient → Except ConfigError Unit
  | [] => Except.ok ()
  | c :: rest =>
    match chk c with
    | Except.error e => Except.error e
    | Except.ok _ => checkAll chk rest

/-- Variant A validation, run before the lattice loop. -/
def validateA (cfg : List Ingredient) : Except ConfigError Unit :=
  if 1 < solventCount cfg then .error .multipleSolvents
  else checkAll checkIngredientA cfg

/-- Variant B validation, run before the lattice loop. -/
def validateB (cfg : List Ingredient) : Except ConfigError Unit :=
  if 1 < solventCount cfg then .error .multipleSolvents
  else checkAll checkIngredientB cfg

/-! ### Column schema -/

def colProdWt (names : List String) : List String :=
  names.map (fun n => n ++ " (Product wt) [%]")

def colActiveWt (names : List String) : List String :=
  names.map (fun n => n ++ " (Active wt) [%]")

def colMass (names : List String) : List String :=
  names.map (fun n => n ++ " (Product mass) [g]")

def colVol (names : List String) : List String :=
  names.map (fun n => n ++ " (Product volume) [mL]")

def colImpMass (names : List String) : List String :=
  names.map (fun n => n ++ " (Impurity Mass) [g]")

def summCols : List String :=
  ["Sum (Product mass) [g]", "Sum (Product weight) [%]", "Sum (Active weight) [%]"]

/-- Variant B `active_wt_col_map`, resolved per component. -/
def activeWtColB (p : String × Ingredient) : String :=
  if p.2.isSolvent then p.1 ++ " (Component Active + Solvent as active, wt) [%]"
  else p.1 ++ " (Active wt) [%]"

/-- Variant B `active_mass_col_map`, resolved per component. -/
def activeMassColB (p : String × Ingredient) : String :=
  if p.2.isSolvent then p.1 ++ " (Active Mass + Solvent as active) [g]"
  else p.1 ++ " (Active Mass) [g]"

/-- Variant A `final_cols`. -/
def finalColsA (cfg : List (String × Ingredient)) : List String :=
  let names := cfg.map Prod.fst
  ("Formula Number" ::
      (colProdWt names ++ colActiveWt names ++ colMass names ++ colVol names))
    ++ summCols
    ++ (if hasSolvent (cfg.map Prod.snd) then
          ["Extra Solvent from Ingredients [g]", "Total Solvent [g]"] else [])

/-- Variant B `final_cols`. -/
def finalColsB (cfg : List (String × Ingredient)) : List String :=
  let names := cfg.map Prod.fst
  ("Formula Number" ::
      (colMass names ++ colVol names ++ cfg.map activeMassColB
        ++ colImpMass names ++ colProdWt names ++ cfg.map activeWtColB))
    ++ summCols

/-- Source `cols_rem`: the removed table leads with the reason and drops the formula
number (both variants). -/
def removedColsOf (finalCols : List String) : List String :=
  "Reason Removed" :: finalCols.filter (fun c => c ≠ "Formula Number")

/-- Output of one `calculate_design` run (randomize = False path). -/
structure DesignTables where
  valid : List (ℕ × FormulaRow)
  removed : List FormulaRow
  finalCols : List String
  removedCols : List String
deriving DecidableEq

/-- Variant A `calculate_design` with `randomize = False`: validation first,
then the lattice loop, then replication and numbering of the valid table. -/
def calculateDesignA (cfg : List (String × Ingredient)) (m : ℕ) (total : ℚ)
    (replicate : ℕ) : Except ConfigError DesignTables :=
  match validateA (cfg.map Prod.snd) with
  | .error e => .error e
  | .ok _ =>
    .ok { valid := numberRows (applyReplicate replicate (validRowsA (cfg.map Prod.snd) m total))
          removed := removedRowsA (cfg.map Prod.snd) m total
          finalCols := finalColsA cfg
          removedCols := removedColsOf (finalColsA cfg) }

/-- Variant B `calculate_design` with `randomize = False`. -/
def calculateDesignB (cfg : List (String × Ingredient)) (m : ℕ) (total : ℚ)
    (replicate : ℕ) : Except ConfigError DesignTables :=
  match validateB (cfg.map Prod.snd) with
  | .error e => .error e
  | .ok _ =>
    .ok { valid := numberRows (applyReplicate replicate (validRowsB (cfg.map Prod.snd) m total))
          removed := removedRowsB (cfg.map Prod.snd) m total
          finalCols := finalColsB cfg
          removedCols := removedColsOf (finalColsB cfg) }

/-! ### Example configurations used as concrete witnesses -/

/-- Ingredient A of the worked example in the specification: purity 90 %,
max active 50 %, density 1, non-solvent. -/
def exIngredientA : Ingredient :=
  { purityPct := 90, maxActivePct := 50, density := 1, isSolvent := false }

/-- Ingredient B of the worked example: a pure solvent. -/
def exSolvent : Ingredient :=
  { purityPct := 100, maxActivePct := 100, density := 1, isSolvent := true }

/-- The two-ingredient example configuration with a solvent. -/
def exCfg : List Ingredient := [exIngredientA, exSolvent]

/-- The named version of the example configuration. -/
def exNamed : List (String × Ingredient) := [("A", exIngredientA), ("B", exSolvent)]

/-- A single out-of-range ingredient (purity 150 %, max active 120 %). -/
def badIngredient : Ingredient :=
  { purityPct := 150, maxActivePct := 120, density := 1, isSolvent := false }

/-- A plain pure ingredient with no solvent role. -/
def exPlain : Ingredient :=
  { purityPct := 100, maxActivePct := 100, density := 1, isSolvent := false }

/-- Two plain ingredients, no solvent. -/
def exCfgPlain : List Ingredient := [exPlain, exPlain]

/-- The named plain configuration. -/
def exNamedPlain : List (String × Ingredient) := [("A", exPlain), ("B", exPlain)]

/-- The column layout claim C8 asserts for the variant A valid table: formula
number; per-ingredient product mass, product volume, active mass (standard
name), product weight-percent, active weight-percent; the two extra solvent
columns; then the trailing summary columns. -/
def claimedColsA (cfg : List (String × Ingredient)) : List String :=
  let names := cfg.map Prod.fst
  ("Formula Number" ::
      (colMass names ++ colVol names
        ++ names.map (fun n => n ++ " (Active Mass) [g]")
        ++ colProdWt names ++ colActiveWt names))
    ++ (if hasSolvent (cfg.map Prod.snd) then
          ["Extra Solvent from Ingredients [g]", "Total Solvent [g]"] else [])
    ++ summCols

/-- The removed-table layout claim C8 asserts: the canonical columns without
the formula number, with the rejection reason trailing. -/
def claimedRemovedColsOf (finalCols : List String) : List String :=
  (finalCols.filter (fun c => c ≠ "Formula Number")) ++ ["Reason Removed"]

/-- A concrete row used to exercise the replication stage. -/
def exRow : FormulaRow :=
  { masses := [], vols := [], prodWts := [], activeMs := [], activeWts := [],
    impurities := [], sumMass := 0, sumProdWt := 0, sumActiveWt := 0,
    valid := true, reason := "" }

/-! ### Lattice lemmas -/

theorem mem_tuples {m : ℕ} : ∀ {n : ℕ} {t : List ℕ},
    t ∈ tuples m n ↔ t.length = n ∧ ∀ x ∈ t, x ≤ m := by
  intro n
  induction n with
  | zero =>
    intro t
    simp only [tuples, List.mem_singleton]
    constructor
    · rintro rfl; simp
    · rintro ⟨hlen, -⟩; exact List.length_eq_zero.mp hlen
  | succ n ih =>
    intro t
    simp only [tuples, List.mem_flatMap, List.mem_map, List.mem_range]
    constructor
    · rintro ⟨k, hk, s, hs, rfl⟩
      obtain ⟨hlen, hbound⟩ := ih.mp hs
      refine ⟨by simp [hlen], ?_⟩
      intro x hx
      rcases List.mem_cons.mp hx with rfl | hx
      · omega
      · exact hbound x hx
    · rintro ⟨hlen, hbound⟩
      match t with
      | [] => simp at hlen
      | k :: s =>
        refine ⟨k, ?_, s, ih.mpr ⟨by simpa using hlen, ?_⟩, rfl⟩
        · have := hbound k (List.mem_cons_self k s); omega
        · intro x hx; exact hbound x (List.mem_cons_of_mem _ hx)

theorem tuples_pairwise_lex (m : ℕ) : ∀ n : ℕ,
    (tuples m n).Pairwise (List.Lex (· < ·)) := by
  intro n
  induction n with
  | zero => simp [tuples]
  | succ n ih =>
    rw [tuples, List.pairwise_flatMap]
    constructor
    · intro k _
      rw [List.pairwise_map]
      exact ih.imp (fun h => List.Lex.cons h)
    · refine (List.pairwise_lt_range (m + 1)).imp ?_
      intro k₁ k₂ hk x hx y hy
      obtain ⟨s, -, rfl⟩ := List.mem_map.mp hx
      obtain ⟨u, -, rfl⟩ := List.mem_map.mp hy
      exact List.Lex.rel hk

theorem mem_lattice {m n : ℕ} {t : List ℕ} :
    t ∈ lattice m n ↔ (t.length = n ∧ ∀ x ∈ t, x ≤ m) ∧ t.sum = m := by
  simp [lattice, List.mem_filter, mem_tuples]

/-- Every natural in a list of naturals is at most the sum of the list. -/
theorem le_list_sum {t : List ℕ} {x : ℕ} (hx : x ∈ t) : x ≤ t.sum := by
  induction t with
  | nil => cases hx
  | cons a s ih =>
    rcases List.mem_cons.mp hx with rfl | hx
    · simp
    · have := ih hx; simp only [List.sum_cons]; omega

theorem lattice_complete {m n : ℕ} {t : List ℕ}
    (hlen : t.length = n) (hsum : t.sum = m) : t ∈ lattice m n :=
  mem_lattice.mpr ⟨⟨hlen, fun _ hx => hsum ▸ le_list_sum hx⟩, hsum⟩

theorem lattice_pairwise_lex (m n : ℕ) :
    (lattice m n).Pairwise (List.Lex (· < ·)) :=
  (tuples_pairwise_lex m n).sublist (List.filter_sublist _)

/-- Helper: a `List.range` sum is the corresponding `Finset.range` sum. -/
theorem list_range_map_sum {M : Type*} [AddCommMonoid M] (f : ℕ → M) (n : ℕ) :
    ((List.range n).map f).sum = ∑ i ∈ Finset.range n, f i := by
  induction n with
  | zero => simp
  | succ n ih => rw [List.range_succ, Finset.sum_range_succ]; simp [ih]

/-- Hockey-stick identity in the form needed for the lattice count. -/
theorem sum_choose_add (r : ℕ) : ∀ j : ℕ,
    ∑ i ∈ Finset.range (j + 1), (i + r).choose r = (j + r + 1).choose (r + 1) := by
  intro j
  induction j with
  | zero => simp
  | succ j ih =>
    rw [Finset.sum_range_succ, ih]
    have h1 : j + 1 + r + 1 = (j + r + 1) + 1 := by omega
    have h2 : j + 1 + r = j + r + 1 := by omega
    rw [h1, h2, Nat.choose_succ_succ (j + r + 1) r]
    exact Nat.add_comm _ _

/-- Helper: a flatMap whose blocks are singletons is a map. -/
theorem flatMap_singleton_map {α β : Type*} (l : List α) (f : α → β) :
    (l.flatMap fun a => [f a]) = l.map f := by
  induction l with
  | nil => rfl
  | cons a s ih => simp [List.flatMap_cons, ih]

/-- Helper: the length of a flatMap is the sum of the block lengths. -/
theorem flatMap_length {α β : Type*} (l : List α) (f : α → List β) :
    (l.flatMap f).length = (l.map (fun a => (f a).length)).sum := by
  induction l with
  | nil => rfl
  | cons a s ih => simp [List.flatMap_cons, ih]

/-- The number of n-tuples over `0 .. m` with sum `j ≤ m`, for `n ≥ 1`. -/
theorem tuples_filter_sum_length {m : ℕ} : ∀ n : ℕ, 1 ≤ n → ∀ j : ℕ, j ≤ m →
    ((tuples m n).filter (fun t => t.sum = j)).length = (j + n - 1).choose (n - 1) := by
  intro n
  induction n with
  | zero => omega
  | succ n ih =>
    intro _ j hj
    rcases Nat.eq_zero_or_pos n with rfl | hn
    · -- base case n = 1: tuples m 1 = [[0], [1], ..., [m]]
      have h1 : tuples m 1 = (List.range (m + 1)).map (fun k => [k]) := by
        simp only [tuples, List.map_cons, List.map_nil]
        exact flatMap_singleton_map _ _
      rw [h1, List.filter_map, List.length_map, ← List.countP_eq_length_filter]
      have hc : (List.range (m + 1)).countP ((fun t => decide (t.sum = j)) ∘ fun k => [k])
          = (List.range (m + 1)).count j := by
        apply List.countP_congr
        intro k _
        by_cases h : k = j <;> simp [h, Function.comp]
      have hmem : j ∈ List.range (m + 1) := List.mem_range.mpr (by omega)
      rw [hc, List.count_eq_one_of_mem (List.nodup_range (m + 1)) hmem]
      simp
    · -- inductive step n ≥ 1
      have step : (tuples m (n + 1)).filter (fun t => t.sum = j)
          = (List.range (m + 1)).flatMap
              (fun k => ((tuples m n).filter (fun t => k + t.sum = j)).map (fun t => k :: t)) := by
        rw [tuples, List.filter_flatMap]
        congr 1
        funext k
        rw [List.filter_map]
        congr 1
      rw [step, flatMap_length, list_range_map_sum]
      have hterm : ∀ k ∈ Finset.range (m + 1),
          (((tuples m n).filter (fun t => k + t.sum = j)).map (fun t => k :: t)).length
            = if k ≤ j then (j - k + n - 1).choose (n - 1) else 0 := by
        intro k _
        rw [List.length_map]
        by_cases hkj : k ≤ j
        · rw [if_pos hkj]
          have hcongr : (tuples m n).filter (fun t => k + t.sum = j)
              = (tuples m n).filter (fun t => t.sum = j - k) := by
            apply List.filter_congr
            intro t _
            simp only [decide_eq_decide]
            omega
          have hjk : j - k ≤ m := by omega
          rw [hcongr, ih hn (j - k) hjk]
        · rw [if_neg hkj]
          rw [List.length_eq_zero]
          apply List.filter_eq_nil_iff.mpr
          intro t _
          simp only [decide_eq_true_eq]
          omega
      rw [Finset.sum_congr rfl hterm]
      have hss : Finset.range (j + 1) ⊆ Finset.range (m + 1) :=
        Finset.range_subset.mpr (by omega)
      have hzero : ∀ k ∈ Finset.range (m + 1), k ∉ Finset.range (j + 1) →
          (if k ≤ j then (j - k + n - 1).choose (n - 1) else 0) = 0 := by
        intro k _ hk
        simp only [Finset.mem_range] at hk
        rw [if_neg (by omega)]
      have hsub : ∑ k ∈ Finset.range (m + 1),
            (if k ≤ j then (j - k + n - 1).choose (n - 1) else 0)
          = ∑ k ∈ Finset.range (j + 1), (j - k + n - 1).choose (n - 1) := by
        rw [← Finset.sum_subset hss hzero]
        apply Finset.sum_congr rfl
        intro k hk
        simp only [Finset.mem_range] at hk
        rw [if_pos (by omega)]
      rw [hsub]
      have hrefl : ∑ k ∈ Finset.range (j + 1), (j - k + n - 1).choose (n - 1)
          = ∑ i ∈ Finset.range (j + 1), (i + n - 1).choose (n - 1) := by
        have := Finset.sum_range_reflect (fun i => (i + n - 1).choose (n - 1)) (j + 1)
        simpa using this
      rw [hrefl]
      obtain ⟨r, rfl⟩ : ∃ r, n = r + 1 := ⟨n - 1, by omega⟩
      have hform : ∀ i : ℕ, (i + (r + 1) - 1).choose (r + 1 - 1) = (i + r).choose r := by
        intro i
        congr 1
      rw [Finset.sum_congr rfl (fun i _ => hform i), sum_choose_add]
      congr 1

theorem lattice_length {m n : ℕ} (hn : 1 ≤ n) :
    (lattice m n).length = (m + n - 1).choose (n - 1) :=
  tuples_filter_sum_length n hn m le_rfl

/-- Helper: sum of mapped division over ℚ. -/
theorem sum_map_div (t : List ℕ) (c : ℚ) :
    (t.map (fun k : ℕ => (k : ℚ) / c)).sum = ((t.map (fun k : ℕ => (k : ℚ))).sum) / c := by
  induction t with
  | nil => simp
  | cons a s ih => simp [ih, add_div]

/-- Helper: casting a list sum of naturals into ℚ. -/
theorem sum_map_natCast (t : List ℕ) :
    (t.map (fun k : ℕ => (k : ℚ))).sum = (t.sum : ℚ) := by
  induction t with
  | nil => simp
  | cons a s ih => simp only [List.map_cons, List.sum_cons, Nat.cast_add, ih]

theorem zOf_sum {m : ℕ} {t : List ℕ} (hm : 1 ≤ m) (hsum : t.sum = m) :
    (zOf m t).sum = 1 := by
  rw [zOf, sum_map_div, sum_map_natCast]
  have hm0 : (m : ℚ) ≠ 0 := Nat.cast_ne_zero.mpr (by omega)
  rw [hsum]
  exact div_self hm0

/-! ### List helper lemmas for the mass balance -/

theorem sum_map_filter_split {α : Type*} (l : List α) (p : α → Bool) (f : α → ℚ) :
    (l.map f).sum
      = ((l.filter p).map f).sum + ((l.filter (fun a => !p a)).map f).sum := by
  induction l with
  | nil => simp
  | cons a s ih =>
    by_cases h : p a = true <;> simp [List.filter_cons, h, ih] <;> ring

theorem sum_map_add_rat {α : Type*} (l : List α) (f g : α → ℚ) :
    (l.map (fun a => f a + g a)).sum = (l.map f).sum + (l.map g).sum := by
  induction l with
  | nil => simp
  | cons a s ih =>
    simp only [List.map_cons, List.sum_cons, ih]
    ring

theorem countP_zip_left {α β : Type*} (p : α → Bool) :
    ∀ (l : List α) (w : List β), w.length = l.length →
      (l.zip w).countP (fun q => p q.1) = l.countP p := by
  intro l
  induction l with
  | nil => intro w _; simp
  | cons a s ih =>
    intro w hw
    match w with
    | [] => simp at hw
    | b :: w =>
      simp only [List.zip_cons_cons, List.countP_cons]
      rw [ih w (by simpa using hw)]

theorem filter_length_one {α : Type*} {l : List α} {p : α → Bool}
    (h : l.countP p = 1) : ∃ a, l.filter p = [a] ∧ p a = true := by
  rw [List.countP_eq_length_filter] at h
  obtain ⟨a, ha⟩ := List.length_eq_one.mp h
  refine ⟨a, ha, ?_⟩
  have : a ∈ l.filter p := ha ▸ List.mem_singleton_self a
  exact (List.mem_filter.mp this).2

/-- On the non-solvent components the recorded product mass is the
purity-scaled target mass. -/
theorem filter_nonsolvent_masses (total : ℚ) (cfg : List Ingredient) (z : List ℚ) :
    ((cfg.zip z).filter (fun q => !q.1.isSolvent)).map
      (fun p => productMass total cfg z p.1 p.2)
      = ((cfg.zip z).filter (fun q => !q.1.isSolvent)).map
        (fun p => nonSolventMass total p.1 p.2) := by
  apply List.map_congr_left
  intro q hq
  have h := (List.mem_filter.mp hq).2
  simp only [Bool.not_eq_true'] at h
  simp [productMass, h]

/-- With exactly one flagged solvent component, the zipped component list
carries exactly one solvent pair. -/
theorem countP_zip_solvent (cfg : List Ingredient) (z : List ℚ)
    (hz : z.length = cfg.length) (hs : hasSolvent cfg = true)
    (hc : solventCount cfg ≤ 1) :
    (cfg.zip z).countP (fun q => q.1.isSolvent) = 1 := by
  rw [countP_zip_left (fun c => c.isSolvent) cfg z hz]
  have hpos : 0 < cfg.countP (fun c => c.isSolvent) := by
    rw [List.countP_pos_iff]
    obtain ⟨c, hmem, hcs⟩ := List.any_eq_true.mp hs
    exact ⟨c, hmem, hcs⟩
  have hle : cfg.countP (fun c => c.isSolvent) ≤ 1 := hc
  omega

/-- C9 core fact: when a solvent is designated, the recorded product masses
sum exactly to the total formula mass. -/
theorem productMasses_sum (total : ℚ) (cfg : List Ingredient) (z : List ℚ)
    (hz : z.length = cfg.length) (hs : hasSolvent cfg = true)
    (hc : solventCount cfg ≤ 1) :
    (productMasses total cfg z).sum = total := by
  rw [productMasses, sum_map_filter_split (cfg.zip z) (fun q => q.1.isSolvent)]
  obtain ⟨q, hfil, hq⟩ := filter_length_one (countP_zip_solvent cfg z hz hs hc)
  rw [hfil, filter_nonsolvent_masses]
  simp only [List.map_cons, List.map_nil, List.sum_cons, List.sum_nil]
  have hpm : productMass total cfg z q.1 q.2 = reqSolventMass total cfg z := by
    rw [productMass, if_pos hq]
  rw [hpm, reqSolventMass, sumNonSolventMass]
  ring

/-- Variant B: the active masses sum to the product masses (mass is conserved
by the impurity redistribution). -/
theorem activeMassesB_sum (total : ℚ) (cfg : List Ingredient) (z : List ℚ)
    (hz : z.length = cfg.length) (hs : hasSolvent cfg = true)
    (hc : solventCount cfg ≤ 1) :
    ((cfg.zip z).map (fun p => activeMassB total cfg z p.1 p.2)).sum
      = (productMasses total cfg z).sum := by
  have hsplitA := sum_map_filter_split (cfg.zip z) (fun q => q.1.isSolvent)
    (fun p => activeMassB total cfg z p.1 p.2)
  have hsplitI := sum_map_filter_split (cfg.zip z) (fun q => q.1.isSolvent)
    (fun p => intrinsicActive total cfg z p.1 p.2)
  obtain ⟨q, hfil, hq⟩ := filter_length_one (countP_zip_solvent cfg z hz hs hc)
  have hA : ∀ p ∈ (cfg.zip z).filter (fun q => !q.1.isSolvent),
      activeMassB total cfg z p.1 p.2 = intrinsicActive total cfg z p.1 p.2 := by
    intro p hp
    have h := (List.mem_filter.mp hp).2
    simp only [Bool.not_eq_true'] at h
    rw [activeMassB, if_neg (by simp [h])]
  rw [hsplitA, hfil, List.map_congr_left hA]
  have hA2 : activeMassB total cfg z q.1 q.2
      = intrinsicActive total cfg z q.1 q.2 + totalImpurityMass total cfg z := by
    rw [activeMassB, if_pos hq]
  simp only [List.map_cons, List.map_nil, List.sum_cons, List.sum_nil, hA2]
  have hI : intrinsicActive total cfg z q.1 q.2
        + (((cfg.zip z).filter (fun q => !q.1.isSolvent)).map
            (fun p => intrinsicActive total cfg z p.1 p.2)).sum
      = ((cfg.zip z).map (fun p => intrinsicActive total cfg z p.1 p.2)).sum := by
    rw [hsplitI, hfil]
    simp
  have hcons : ((cfg.zip z).map (fun p => intrinsicActive total cfg z p.1 p.2)).sum
        + totalImpurityMass total cfg z
      = (productMasses total cfg z).sum := by
    rw [totalImpurityMass, productMasses, ← sum_map_add_rat]
    apply congrArg
    apply List.map_congr_left
    intro p _
    rw [intrinsicActive, impurityMass]
    ring
  calc intrinsicActive total cfg z q.1 q.2 + totalImpurityMass total cfg z + 0
        + (((cfg.zip z).filter (fun q => !q.1.isSolvent)).map
            (fun p => intrinsicActive total cfg z p.1 p.2)).sum
      = intrinsicActive total cfg z q.1 q.2
        + (((cfg.zip z).filter (fun q => !q.1.isSolvent)).map
            (fun p => intrinsicActive total cfg z p.1 p.2)).sum
        + totalImpurityMass total cfg z := by ring
    _ = ((cfg.zip z).map (fun p => intrinsicActive total cfg z p.1 p.2)).sum
        + totalImpurityMass total cfg z := by rw [hI]
    _ = (productMasses total cfg z).sum := hcons

/-- Weight percentages are linear in the quantity once the total is positive. -/
theorem sum_map_wtPct (total : ℚ) (htotal : 0 < total) (l : List ℚ) :
    (l.map (fun x => wtPct total x)).sum = l.sum / total * 100 := by
  induction l with
  | nil => simp
  | cons a s ih =>
    rw [List.map_cons, List.sum_cons, List.sum_cons, ih, wtPct, if_pos htotal]
    ring

/-- Normal form of the variant A classifier. -/
theorem classifyA_eq (total sm sa : ℚ) :
    classifyA total sm sa
      = if sa > 100.01 then (false, "Sum(Active) > 100%")
        else if sm > total * 1.01 then (false, "Sum(Product) > Total Mass")
        else (true, "") := rfl

/-- Normal form of the variant B classifier. -/
theorem classifyB_eq (total sm : ℚ) (sp : Bool) (sv sa : ℚ) :
    classifyB total sm sp sv sa
      = if sa > 100.01 then (false, "Sum(Active) > 100%")
        else if sm > total * 1.01 then (false, "Sum(Product) > Total Mass")
        else if sm < total * 0.99 ∧ sp = true ∧ sv < 0 then
          (false, "Negative Solvent Required")
        else (true, "") := rfl

/-! ### Row projection lemmas -/

theorem mkRowA_sumMass (total : ℚ) (cfg : List Ingredient) (z : List ℚ) :
    (mkRowA total cfg z).sumMass = (productMasses total cfg z).sum := rfl

theorem mkRowA_reason (total : ℚ) (cfg : List Ingredient) (z : List ℚ) :
    (mkRowA total cfg z).reason
      = (classifyA total (productMasses total cfg z).sum
          (((cfg.zip z).map (fun p => activeMassA total cfg z p.1 p.2)).map
            (fun x => wtPct total x)).sum).2 := rfl

theorem mkRowA_valid (total : ℚ) (cfg : List Ingredient) (z : List ℚ) :
    (mkRowA total cfg z).valid
      = (classifyA total (productMasses total cfg z).sum
          (((cfg.zip z).map (fun p => activeMassA total cfg z p.1 p.2)).map
            (fun x => wtPct total x)).sum).1 := rfl

theorem mkRowA_sumActiveWt (total : ℚ) (cfg : List Ingredient) (z : List ℚ) :
    (mkRowA total cfg z).sumActiveWt
      = (((cfg.zip z).map (fun p => activeMassA total cfg z p.1 p.2)).map
          (fun x => wtPct total x)).sum := rfl

theorem mkRowB_sumMass (total : ℚ) (cfg : List Ingredient) (z : List ℚ) :
    (mkRowB total cfg z).sumMass = (productMasses total cfg z).sum := rfl

theorem mkRowB_sumActiveWt (total : ℚ) (cfg : List Ingredient) (z : List ℚ) :
    (mkRowB total cfg z).sumActiveWt
      = (((cfg.zip z).map (fun p => activeMassB total cfg z p.1 p.2)).map
          (fun x => wtPct total x)).sum := rfl

theorem mkRowB_reason (total : ℚ) (cfg : List Ingredient) (z : List ℚ) :
    (mkRowB total cfg z).reason
      = (classifyB total (productMasses total cfg z).sum (hasSolvent cfg)
          (reqSolventMass total cfg z)
          (((cfg.zip z).map (fun p => activeMassB total cfg z p.1 p.2)).map
            (fun x => wtPct total x)).sum).2 := rfl

theorem mkRowB_valid (total : ℚ) (cfg : List Ingredient) (z : List ℚ) :
    (mkRowB total cfg z).valid
      = (classifyB total (productMasses total cfg z).sum (hasSolvent cfg)
          (reqSolventMass total cfg z)
          (((cfg.zip z).map (fun p => activeMassB total cfg z p.1 p.2)).map
            (fun x => wtPct total x)).sum).1 := rfl

/-- Every z vector produced in the lattice loop has one entry per component. -/
theorem zOf_length_of_mem_lattice {m n : ℕ} {t : List ℕ}
    (ht : t ∈ lattice m n) : (zOf m t).length = n := by
  obtain ⟨⟨hlen, -⟩, -⟩ := mem_lattice.mp ht
  simpa [zOf] using hlen

/-- Positive totals are strictly below their own 1 % enlargement. -/
theorem total_lt_tolerance {total : ℚ} (htotal : 0 < total) :
    ¬ total > total * 1.01 := by nlinarith

/-- Positive totals are strictly above their own 1 % reduction. -/
theorem total_gt_tolerance {total : ℚ} (htotal : 0 < total) :
    ¬ total < total * 0.99 := by nlinarith

/-! ### Claim theorems -/

/-- C1: for every degree m ≥ 1 and ingredient count n ≥ 2, the lattice loop of
`calculate_design` (identical in both variants) emits exactly
`C(m + n - 1, n - 1)` composition tuples: every integer n-tuple with
nonnegative entries summing to m is emitted and none is rejected, each
converted z vector sums to 1, and the enumeration is strictly increasing in
lexicographic order over the integer tuples. -/
theorem C1_lattice_enumeration (m n : ℕ) (hm : 1 ≤ m) (hn : 2 ≤ n) :
    (lattice m n).length = (m + n - 1).choose (n - 1)
      ∧ (∀ t ∈ lattice m n, t.length = n ∧ t.sum = m ∧ (zOf m t).sum = 1)
      ∧ (∀ t : List ℕ, t.length = n → t.sum = m → t ∈ lattice m n)
      ∧ (lattice m n).Pairwise (List.Lex (· < ·)) := by
  refine ⟨lattice_length (by omega), ?_,
    fun t htl hts => lattice_complete htl hts, lattice_pairwise_lex m n⟩
  intro t ht
  obtain ⟨⟨hlen, -⟩, hsum⟩ := mem_lattice.mp ht
  exact ⟨hlen, hsum, zOf_sum hm hsum⟩

/-- C1 witness: degree 2 with 2 ingredients gives C(3,1) = 3 tuples. -/
theorem C1_lattice_enumeration_witness :
    (lattice 2 2).length = (2 + 2 - 1).choose (2 - 1) :=
  (C1_lattice_enumeration 2 2 (by decide) (by decide)).1

/-- C9: with a designated solvent and a positive total mass, every computed
row of either variant (valid or removed) records a product-mass sum exactly
equal to the total formula mass, because the solvent mass is the remainder;
hence the reasons Sum(Product) > Total Mass and (variant B) Negative Solvent
Required are never assigned. -/
theorem C9_mass_closure (cfg : List Ingredient) (m : ℕ) (total : ℚ)
    (htotal : 0 < total) (hs : hasSolvent cfg = true) (hc : solventCount cfg ≤ 1) :
    (∀ r ∈ rowsA cfg m total,
        r.sumMass = total ∧ r.reason ≠ "Sum(Product) > Total Mass")
      ∧ (∀ r ∈ rowsB cfg m total,
        r.sumMass = total ∧ r.reason ≠ "Sum(Product) > Total Mass"
          ∧ r.reason ≠ "Negative Solvent Required") := by
  constructor
  · intro r hr
    obtain ⟨t, ht, rfl⟩ := List.mem_map.mp hr
    have hz : (zOf m t).length = cfg.length := zOf_length_of_mem_lattice ht
    have hmass := productMasses_sum total cfg (zOf m t) hz hs hc
    refine ⟨by rw [mkRowA_sumMass, hmass], ?_⟩
    rw [mkRowA_reason, classifyA_eq, hmass]
    by_cases hsa : (((cfg.zip (zOf m t)).map
        (fun p => activeMassA total cfg (zOf m t) p.1 p.2)).map
          (fun x => wtPct total x)).sum > 100.01
    · rw [if_pos hsa]
      decide
    · rw [if_neg hsa, if_neg (total_lt_tolerance htotal)]
      decide
  · intro r hr
    obtain ⟨t, ht, rfl⟩ := List.mem_map.mp hr
    have hz : (zOf m t).length = cfg.length := zOf_length_of_mem_lattice ht
    have hmass := productMasses_sum total cfg (zOf m t) hz hs hc
    refine ⟨by rw [mkRowB_sumMass, hmass], ?_⟩
    rw [mkRowB_reason, classifyB_eq, hmass]
    by_cases hsa : (((cfg.zip (zOf m t)).map
        (fun p => activeMassB total cfg (zOf m t) p.1 p.2)).map
          (fun x => wtPct total x)).sum > 100.01
    · rw [if_pos hsa]
      exact ⟨by decide, by decide⟩
    · rw [if_neg hsa, if_neg (total_lt_tolerance htotal)]
      rw [if_neg (by intro hcon; exact total_gt_tolerance htotal hcon.1)]
      exact ⟨by decide, by decide⟩

/-- C9 witness: the worked solvent example at degree 1, total mass 100. -/
theorem C9_mass_closure_witness :
    (mkRowA 100 exCfg (zOf 1 [1, 0])).sumMass = 100
      ∧ (mkRowA 100 exCfg (zOf 1 [1, 0])).reason ≠ "Sum(Product) > Total Mass" :=
  (C9_mass_closure exCfg 1 100 (by norm_num) (by decide) (by decide)).1
    (mkRowA 100 exCfg (zOf 1 [1, 0]))
    (List.mem_map.mpr ⟨[1, 0], by decide, rfl⟩)

/-- C10: in variant B, with a designated solvent and a positive total mass,
the active masses of every row sum exactly to the product masses, which sum to
the total, so Sum (Active weight) [%] is exactly 100 for every row and every
composition is classified valid: the removed table is empty and the valid
table carries every lattice row (would-be negative solvent masses included). -/
theorem C10_variantB_always_valid (cfg : List Ingredient) (m : ℕ) (total : ℚ)
    (htotal : 0 < total) (hs : hasSolvent cfg = true) (hc : solventCount cfg ≤ 1) :
    (∀ r ∈ rowsB cfg m total,
        r.sumActiveWt = 100 ∧ r.sumMass = total ∧ r.valid = true)
      ∧ removedRowsB cfg m total = []
      ∧ validRowsB cfg m total = rowsB cfg m total := by
  have hmain : ∀ r ∈ rowsB cfg m total,
      r.sumActiveWt = 100 ∧ r.sumMass = total ∧ r.valid = true := by
    intro r hr
    obtain ⟨t, ht, rfl⟩ := List.mem_map.mp hr
    have hz : (zOf m t).length = cfg.length := zOf_length_of_mem_lattice ht
    have hmass := productMasses_sum total cfg (zOf m t) hz hs hc
    have hactsum := activeMassesB_sum total cfg (zOf m t) hz hs hc
    have hwt : (mkRowB total cfg (zOf m t)).sumActiveWt = 100 := by
      rw [mkRowB_sumActiveWt, sum_map_wtPct total htotal, hactsum, hmass,
        div_self (ne_of_gt htotal), one_mul]
    refine ⟨hwt, by rw [mkRowB_sumMass, hmass], ?_⟩
    rw [mkRowB_valid, classifyB_eq, hmass]
    have h100 : ¬ ((((cfg.zip (zOf m t)).map
        (fun p => activeMassB total cfg (zOf m t) p.1 p.2)).map
          (fun x => wtPct total x)).sum > 100.01) := by
      have : (((cfg.zip (zOf m t)).map
          (fun p => activeMassB total cfg (zOf m t) p.1 p.2)).map
            (fun x => wtPct total x)).sum = 100 := by
        rw [← mkRowB_sumActiveWt]
        exact hwt
      rw [this]
      norm_num
    rw [if_neg h100, if_neg (total_lt_tolerance htotal)]
    rw [if_neg (by intro hcon; exact total_gt_tolerance htotal hcon.1)]
  refine ⟨hmain, ?_, ?_⟩
  · rw [removedRowsB, List.filter_eq_nil_iff]
    intro r hr
    simp [(hmain r hr).2.2]
  · rw [validRowsB, List.filter_eq_self]
    intro r hr
    simp [(hmain r hr).2.2]

/-- C10 witness: the worked solvent example at degree 1, total mass 100. -/
theorem C10_variantB_always_valid_witness :
    removedRowsB exCfg 1 100 = [] ∧ validRowsB exCfg 1 100 = rowsB exCfg 1 100 :=
  (C10_variantB_always_valid exCfg 1 100 (by norm_num) (by decide) (by decide)).2

/-- With a positive total, the recorded weight percent is `100 * x / total`. -/
theorem wtPct_eq (total x : ℚ) (htotal : 0 < total) :
    wtPct total x = 100 * x / total := by
  rw [wtPct, if_pos htotal]
  ring

/-- The recorded product volumes are the recorded product masses divided by
the densities, componentwise. -/
theorem vols_eq_zipWith (total : ℚ) (cfg0 : List Ingredient) (z0 : List ℚ) :
    ∀ (l : List Ingredient) (w : List ℚ),
      (l.zip w).map (fun p => productMass total cfg0 z0 p.1 p.2 / p.1.density)
        = List.zipWith (fun c pm => pm / c.density) l
            ((l.zip w).map (fun p => productMass total cfg0 z0 p.1 p.2)) := by
  intro l
  induction l with
  | nil => intro w; simp
  | cons a s ih =>
    intro w
    cases w with
    | nil => simp
    | cons b wtl => simp [ih]

/-- On the non-solvent components the recorded impurity factors through the
recorded product mass. -/
theorem filter_nonsolvent_impurity (total : ℚ) (cfg : List Ingredient) (z : List ℚ) :
    ((cfg.zip z).filter (fun q => !q.1.isSolvent)).map
      (fun p => productMass total cfg z p.1 p.2 * (1 - purityFrac p.1))
      = ((cfg.zip z).filter (fun q => !q.1.isSolvent)).map
        (fun p => nonSolventMass total p.1 p.2 * (1 - purityFrac p.1)) := by
  apply List.map_congr_left
  intro q hq
  have h := (List.mem_filter.mp hq).2
  simp only [Bool.not_eq_true'] at h
  simp [productMass, h]

/-- C2: for every composition vector and non-solvent ingredient, both variants
compute targetActiveMass = z_i * maxActiveFraction_i * totalFormulaMass,
productMass = targetActiveMass / purity (0 when purity is not positive),
productVolume = productMass / density, productWeightPct = 100 * productMass /
totalFormulaMass; the designated solvent gets the total minus the sum of the
non-solvent product masses. -/
theorem C2_mass_formulas (total : ℚ) (cfg : List Ingredient) (z : List ℚ)
    (htotal : 0 < total) :
    (∀ c zi, c.isSolvent = false → 0 < purityFrac c →
        productMass total cfg z c zi = zi * maxActiveFrac c * total / purityFrac c)
      ∧ (∀ c zi, c.isSolvent = false → purityFrac c = 0 →
        productMass total cfg z c zi = 0)
      ∧ (∀ c zi, c.isSolvent = true →
        productMass total cfg z c zi
          = total - (((cfg.zip z).filter (fun q => !q.1.isSolvent)).map
              (fun p => productMass total cfg z p.1 p.2)).sum)
      ∧ (∀ r ∈ [mkRowA total cfg z, mkRowB total cfg z],
          r.masses = productMasses total cfg z
            ∧ r.vols = List.zipWith (fun c pm => pm / c.density) cfg r.masses
            ∧ r.prodWts = r.masses.map (fun x => 100 * x / total)) := by
  refine ⟨?_, ?_, ?_, ?_⟩
  · intro c zi hns hp
    rw [productMass, if_neg (by simp [hns]), nonSolventMass, if_pos hp]
  · intro c zi hns hp
    rw [productMass, if_neg (by simp [hns]), nonSolventMass, if_neg (by rw [hp]; exact lt_irrefl 0)]
  · intro c zi hsv
    rw [productMass, if_pos hsv, reqSolventMass, filter_nonsolvent_masses, sumNonSolventMass]
  · intro r hr
    have hwts : ∀ pm : List ℚ, pm.map (fun x => wtPct total x)
        = pm.map (fun x => 100 * x / total) :=
      fun pm => List.map_congr_left (fun x _ => wtPct_eq total x htotal)
    rcases List.mem_cons.mp hr with rfl | hr
    · exact ⟨rfl, vols_eq_zipWith total cfg z cfg z, hwts _⟩
    · rcases List.mem_cons.mp hr with rfl | hr
      · exact ⟨rfl, vols_eq_zipWith total cfg z cfg z, hwts _⟩
      · cases hr

/-- C2 witness: in the worked example the solvent mass is the remainder. -/
theorem C2_mass_formulas_witness :
    productMass 100 exCfg (zOf 1 [1, 0]) exSolvent 0
      = 100 - (((exCfg.zip (zOf 1 [1, 0])).filter (fun q => !q.1.isSolvent)).map
          (fun p => productMass 100 exCfg (zOf 1 [1, 0]) p.1 p.2)).sum :=
  (C2_mass_formulas 100 exCfg (zOf 1 [1, 0]) (by norm_num)).2.2.1 exSolvent 0 (by decide)

/-- C3: in variant A every non-solvent active mass is productMass * purity;
a designated solvent gets solventMass * solventPurity plus the non-solvent
impurities; with no solvent every active mass is productMass * purity; and
active weight percent is always 100 * activeMass / totalFormulaMass. -/
theorem C3_variantA_active (total : ℚ) (cfg : List Ingredient) (z : List ℚ)
    (htotal : 0 < total) :
    (∀ c zi, c.isSolvent = false →
        activeMassA total cfg z c zi = productMass total cfg z c zi * purityFrac c)
      ∧ (∀ c zi, c.isSolvent = true →
        activeMassA total cfg z c zi
          = productMass total cfg z c zi * purityFrac c
            + (((cfg.zip z).filter (fun q => !q.1.isSolvent)).map
                (fun p => productMass total cfg z p.1 p.2 * (1 - purityFrac p.1))).sum)
      ∧ (hasSolvent cfg = false →
        (mkRowA total cfg z).activeMs
          = (cfg.zip z).map (fun p => productMass total cfg z p.1 p.2 * purityFrac p.1))
      ∧ (mkRowA total cfg z).activeWts
          = (mkRowA total cfg z).activeMs.map (fun a => 100 * a / total) := by
  refine ⟨?_, ?_, ?_, ?_⟩
  · intro c zi hns
    rw [activeMassA, if_neg (by simp [hns]), productMass, if_neg (by simp [hns])]
  · intro c zi hsv
    rw [activeMassA, if_pos hsv, productMass, if_pos hsv,
      filter_nonsolvent_impurity, extraSolventMass]
  · intro hnos
    have hflag : ∀ q ∈ cfg.zip z, q.1.isSolvent = false := by
      intro q hq
      have hmem := (List.of_mem_zip hq).1
      by_contra hcon
      have : hasSolvent cfg = true :=
        List.any_eq_true.mpr ⟨q.1, hmem, by simpa using hcon⟩
      rw [hnos] at this
      cases this
    apply List.map_congr_left
    intro q hq
    rw [activeMassA, if_neg (by simp [hflag q hq]), productMass,
      if_neg (by simp [hflag q hq])]
  · exact List.map_congr_left (fun x _ => wtPct_eq total x htotal)

/-- C3 witness: the non-solvent ingredient of the worked example. -/
theorem C3_variantA_active_witness :
    activeMassA 100 exCfg (zOf 1 [1, 0]) exIngredientA 1
      = productMass 100 exCfg (zOf 1 [1, 0]) exIngredientA 1
          * purityFrac exIngredientA :=
  (C3_variantA_active 100 exCfg (zOf 1 [1, 0]) (by norm_num)).1 exIngredientA 1 (by decide)

/-- C4: in variant B an impurity productMass * (1 - purity) is recorded for
every ingredient including the solvent; non-solvent active masses are
intrinsic; the solvent active mass adds every impurity including its own; and
the worked example takes the values the specification computes: masses 500/9
and 400/9, impurity 50/9, solvent active mass 50, active weight sum exactly
100, classified valid. -/
theorem C4_variantB_impurities (total : ℚ) (cfg : List Ingredient) (z : List ℚ) :
    ((mkRowB total cfg z).impurities
        = (cfg.zip z).map
            (fun p => productMass total cfg z p.1 p.2 * (1 - purityFrac p.1)))
      ∧ (∀ c zi, c.isSolvent = false →
        activeMassB total cfg z c zi = productMass total cfg z c zi * purityFrac c)
      ∧ (∀ c zi, c.isSolvent = true →
        activeMassB total cfg z c zi
          = productMass total cfg z c zi * purityFrac c
            + ((cfg.zip z).map
                (fun p => productMass total cfg z p.1 p.2 * (1 - purityFrac p.1))).sum)
      ∧ ((mkRowB 100 exCfg (zOf 1 [1, 0])).masses = [500 / 9, 400 / 9]
        ∧ (mkRowB 100 exCfg (zOf 1 [1, 0])).impurities = [50 / 9, 0]
        ∧ (mkRowB 100 exCfg (zOf 1 [1, 0])).activeMs = [50, 50]
        ∧ (mkRowB 100 exCfg (zOf 1 [1, 0])).sumActiveWt = 100
        ∧ (mkRowB 100 exCfg (zOf 1 [1, 0])).valid = true) := by
  refine ⟨rfl, ?_, ?_, ?_, ?_, ?_, ?_, ?_⟩
  · intro c zi hns
    rw [activeMassB, if_neg (by simp [hns]), intrinsicActive]
  · intro c zi hsv
    rw [activeMassB, if_pos hsv, intrinsicActive, totalImpurityMass]
    rfl
  all_goals
    norm_num [mkRowB, productMasses, productMass, nonSolventMass, reqSolventMass,
      sumNonSolventMass, purityFrac, maxActiveFrac, exCfg, exIngredientA, exSolvent,
      zOf, activeMassB, intrinsicActive, impurityMass, totalImpurityMass, wtPct,
      classifyB, hasSolvent]

/-- C4 witness: the intrinsic active mass of the non-solvent ingredient. -/
theorem C4_variantB_impurities_witness :
    activeMassB 100 exCfg (zOf 1 [1, 0]) exIngredientA 1
      = productMass 100 exCfg (zOf 1 [1, 0]) exIngredientA 1
          * purityFrac exIngredientA :=
  (C4_variantB_impurities 100 exCfg (zOf 1 [1, 0])).2.1 exIngredientA 1 (by decide)

/-! ### Classifier characterizations and acceptance bounds -/

theorem classifyA_valid_iff (total sm sa : ℚ) :
    (classifyA total sm sa).1 = false ↔ sm > total * 1.01 ∨ sa > 100.01 := by
  rw [classifyA_eq]
  by_cases h1 : sa > 100.01
  · simp [h1]
  · by_cases h2 : sm > total * 1.01 <;> simp [h1, h2]

theorem classifyB_valid_iff (total sm : ℚ) (sp : Bool) (sv sa : ℚ) :
    (classifyB total sm sp sv sa).1 = false
      ↔ sm > total * 1.01 ∨ (sm < total * 0.99 ∧ sp = true ∧ sv < 0)
        ∨ sa > 100.01 := by
  rw [classifyB_eq]
  by_cases h1 : sa > 100.01
  · simp [h1]
  · by_cases h2 : sm > total * 1.01
    · simp [h1, h2]
    · by_cases h3 : sm < total * 0.99 ∧ sp = true ∧ sv < 0 <;> simp [h1, h2, h3]

/-- In a no-solvent configuration, every zipped pair carries a false flag. -/
theorem zip_flags_false (cfg : List Ingredient) (z : List ℚ)
    (hnos : hasSolvent cfg = false) :
    ∀ q ∈ cfg.zip z, q.1.isSolvent = false := by
  intro q hq
  have h := List.any_eq_false.mp hnos q.1 (List.of_mem_zip hq).1
  simpa using h

/-- Bound on one non-solvent active weight contribution (variant A formula). -/
theorem wtPct_activeA_le (total : ℚ) (htotal : 0 < total)
    (cfg0 : List Ingredient) (z0 : List ℚ) (c : Ingredient) (zi : ℚ)
    (hns : c.isSolvent = false) (hm1 : c.maxActivePct ≤ 100) (hzi : 0 ≤ zi) :
    wtPct total (activeMassA total cfg0 z0 c zi) ≤ 100 * zi := by
  rw [activeMassA, if_neg (by simp [hns]), nonSolventMass]
  by_cases hp : 0 < purityFrac c
  · rw [if_pos hp, div_mul_cancel₀ _ (ne_of_gt hp), wtPct, if_pos htotal]
    have h1 : zi * maxActiveFrac c * total / total = zi * maxActiveFrac c :=
      mul_div_cancel_right₀ _ (ne_of_gt htotal)
    rw [h1]
    have hf1 : maxActiveFrac c ≤ 1 := by
      rw [maxActiveFrac]
      linarith
    have h2 : zi * maxActiveFrac c ≤ zi * 1 := mul_le_mul_of_nonneg_left hf1 hzi
    linarith
  · rw [if_neg hp, zero_mul]
    have hw : wtPct total 0 = 0 := by simp [wtPct]
    rw [hw]
    positivity

/-- With no solvent, the variant A active weights sum to at most 100 when the
max-active percentages are at most 100 and z is a subprobability vector. -/
theorem sumActiveWtA_nosolvent_le (total : ℚ) (htotal : 0 < total)
    (cfg : List Ingredient) (z : List ℚ) (hz : z.length = cfg.length)
    (hnos : hasSolvent cfg = false)
    (hmax : ∀ c ∈ cfg, c.maxActivePct ≤ 100)
    (hz0 : ∀ x ∈ z, 0 ≤ x) (hz1 : z.sum ≤ 1) :
    (mkRowA total cfg z).sumActiveWt ≤ 100 := by
  rw [mkRowA_sumActiveWt, List.map_map]
  have hb : ∀ q ∈ cfg.zip z,
      ((fun x => wtPct total x) ∘ fun p => activeMassA total cfg z p.1 p.2) q
        ≤ (fun q : Ingredient × ℚ => 100 * q.2) q := by
    intro q hq
    obtain ⟨hq1, hq2⟩ := List.of_mem_zip hq
    exact wtPct_activeA_le total htotal cfg z q.1 q.2
      (zip_flags_false cfg z hnos q hq) (hmax q.1 hq1) (hz0 q.2 hq2)
  have hsnd : (cfg.zip z).map (fun q : Ingredient × ℚ => q.2) = z :=
    List.map_snd_zip cfg z (le_of_eq hz)
  calc ((cfg.zip z).map
          ((fun x => wtPct total x) ∘ fun p => activeMassA total cfg z p.1 p.2)).sum
      ≤ ((cfg.zip z).map (fun q : Ingredient × ℚ => 100 * q.2)).sum :=
        List.sum_le_sum hb
    _ = 100 * ((cfg.zip z).map (fun q : Ingredient × ℚ => q.2)).sum :=
        List.sum_map_mul_left (cfg.zip z) (fun q => q.2) 100
    _ = 100 * z.sum := by rw [hsnd]
    _ ≤ 100 := by linarith

/-- For non-solvent components the two variants compute the same active mass. -/
theorem activeMassB_eq_A_nonsolvent (total : ℚ) (cfg : List Ingredient)
    (z : List ℚ) (c : Ingredient) (zi : ℚ) (hns : c.isSolvent = false) :
    activeMassB total cfg z c zi = activeMassA total cfg z c zi := by
  rw [activeMassB, if_neg (by simp [hns]), intrinsicActive, productMass,
    if_neg (by simp [hns]), activeMassA, if_neg (by simp [hns])]

/-- With no solvent, the variant B active weight sum equals the variant A one. -/
theorem sumActiveWtB_eq_A_nosolvent (total : ℚ) (cfg : List Ingredient)
    (z : List ℚ) (hnos : hasSolvent cfg = false) :
    (mkRowB total cfg z).sumActiveWt = (mkRowA total cfg z).sumActiveWt := by
  rw [mkRowB_sumActiveWt, mkRowA_sumActiveWt]
  have h : (cfg.zip z).map (fun p => activeMassB total cfg z p.1 p.2)
      = (cfg.zip z).map (fun p => activeMassA total cfg z p.1 p.2) :=
    List.map_congr_left (fun q hq =>
      activeMassB_eq_A_nonsolvent total cfg z q.1 q.2 (zip_flags_false cfg z hnos q hq))
  rw [h]

/-- A filter and its complement partition a list. -/
theorem filter_partition_length {α : Type*} (l : List α) (p : α → Bool) :
    (l.filter p).length + (l.filter (fun a => !p a)).length = l.length := by
  induction l with
  | nil => rfl
  | cons a s ih => by_cases h : p a = true <;> simp [List.filter_cons, h] <;> omega

/-- C5: a formula is removed with reason Sum(Product) > Total Mass when the
product masses exceed 1.01 * total; variant B removes with Negative Solvent
Required when a solvent is present, the sum is under 0.99 * total and the
solvent mass is negative; the reason Sum(Active) > 100% applies whenever the
active weights exceed 100.01 and overrides any earlier reason; a no-solvent
formula below the 99 % threshold is accepted (its active sum cannot exceed the
limit when the configuration is in range); and every composition lands in
exactly one of the two tables, so rejection never halts the loop. -/
theorem C5_validator (total : ℚ) (cfg : List Ingredient) (z : List ℚ)
    (htotal : 0 < total) :
    ((mkRowA total cfg z).valid = false
        ↔ (mkRowA total cfg z).sumMass > total * 1.01
          ∨ (mkRowA total cfg z).sumActiveWt > 100.01)
      ∧ ((mkRowA total cfg z).sumActiveWt > 100.01 →
          (mkRowA total cfg z).reason = "Sum(Active) > 100%")
      ∧ ((mkRowA total cfg z).sumMass > total * 1.01 →
          ¬ (mkRowA total cfg z).sumActiveWt > 100.01 →
          (mkRowA total cfg z).reason = "Sum(Product) > Total Mass")
      ∧ ((mkRowB total cfg z).valid = false
        ↔ (mkRowB total cfg z).sumMass > total * 1.01
          ∨ ((mkRowB total cfg z).sumMass < total * 0.99 ∧ hasSolvent cfg = true
              ∧ reqSolventMass total cfg z < 0)
          ∨ (mkRowB total cfg z).sumActiveWt > 100.01)
      ∧ ((mkRowB total cfg z).sumActiveWt > 100.01 →
          (mkRowB total cfg z).reason = "Sum(Active) > 100%")
      ∧ ((mkRowB total cfg z).sumMass > total * 1.01 →
          ¬ (mkRowB total cfg z).sumActiveWt > 100.01 →
          (mkRowB total cfg z).reason = "Sum(Product) > Total Mass")
      ∧ ((mkRowB total cfg z).sumMass < total * 0.99 → hasSolvent cfg = true →
          reqSolventMass total cfg z < 0 →
          ¬ (mkRowB total cfg z).sumActiveWt > 100.01 →
          (mkRowB total cfg z).reason = "Negative Solvent Required")
      ∧ (hasSolvent cfg = false → z.length = cfg.length →
          (∀ c ∈ cfg, c.maxActivePct ≤ 100) →
          (∀ x ∈ z, 0 ≤ x) → z.sum ≤ 1 →
          (mkRowA total cfg z).sumMass < total * 0.99 →
          (mkRowA total cfg z).valid = true ∧ (mkRowB total cfg z).valid = true)
      ∧ (∀ m : ℕ,
          (validRowsA cfg m total).length + (removedRowsA cfg m total).length
              = (lattice m cfg.length).length
            ∧ (validRowsB cfg m total).length + (removedRowsB cfg m total).length
              = (lattice m cfg.length).length) := by
  refine ⟨?_, ?_, ?_, ?_, ?_, ?_, ?_, ?_, ?_⟩
  · simp only [mkRowA_valid, mkRowA_sumMass, mkRowA_sumActiveWt]
    exact classifyA_valid_iff _ _ _
  · simp only [mkRowA_reason, mkRowA_sumActiveWt]
    intro h
    rw [classifyA_eq, if_pos h]
  · simp only [mkRowA_reason, mkRowA_sumMass, mkRowA_sumActiveWt]
    intro h2 h1
    rw [classifyA_eq, if_neg h1, if_pos h2]
  · simp only [mkRowB_valid, mkRowB_sumMass, mkRowB_sumActiveWt]
    exact classifyB_valid_iff _ _ _ _ _
  · simp only [mkRowB_reason, mkRowB_sumActiveWt]
    intro h
    rw [classifyB_eq, if_pos h]
  · simp only [mkRowB_reason, mkRowB_sumMass, mkRowB_sumActiveWt]
    intro h2 h1
    rw [classifyB_eq, if_neg h1, if_pos h2]
  · simp only [mkRowB_reason, mkRowB_sumMass, mkRowB_sumActiveWt]
    intro hlow hsolv hneg h1
    have hno2 : ¬ (productMasses total cfg z).sum > total * 1.01 := by
      intro hcon
      nlinarith
    rw [classifyB_eq, if_neg h1, if_neg hno2, if_pos ⟨hlow, hsolv, hneg⟩]
  · intro hnos hz hmax hz0 hz1 hlow
    rw [mkRowA_sumMass] at hlow
    have hA := sumActiveWtA_nosolvent_le total htotal cfg z hz hnos hmax hz0 hz1
    have hB := (sumActiveWtB_eq_A_nosolvent total cfg z hnos).trans_le hA
    rw [mkRowA_sumActiveWt] at hA
    rw [mkRowB_sumActiveWt] at hB
    have hnotover : ¬ (productMasses total cfg z).sum > total * 1.01 := by nlinarith
    constructor
    · rw [mkRowA_valid, classifyA_eq, if_neg (by linarith), if_neg hnotover]
    · rw [mkRowB_valid, classifyB_eq, if_neg (by linarith), if_neg hnotover,
        if_neg (by rw [hnos]; intro hcon; cases hcon.2.1)]
  · intro m
    constructor
    · rw [validRowsA, removedRowsA, filter_partition_length, rowsA, List.length_map]
    · rw [validRowsB, removedRowsB, filter_partition_length, rowsB, List.length_map]

/-- C5 witness: both partitions at the plain two-ingredient example, degree 2. -/
theorem C5_validator_witness :
    (validRowsA exCfgPlain 2 100).length + (removedRowsA exCfgPlain 2 100).length
        = (lattice 2 exCfgPlain.length).length
      ∧ (validRowsB exCfgPlain 2 100).length + (removedRowsB exCfgPlain 2 100).length
        = (lattice 2 exCfgPlain.length).length :=
  (C5_validator 100 exCfgPlain (zOf 2 [1, 1]) (by norm_num)).2.2.2.2.2.2.2.2 2

/-! ### Validation characterization -/

theorem checkAll_isOk_iff (chk : Ingredient → Except ConfigError Unit)
    (l : List Ingredient) :
    (checkAll chk l).isOk = true ↔ ∀ c ∈ l, (chk c).isOk = true := by
  induction l with
  | nil => simp [checkAll, Except.isOk, Except.toBool]
  | cons a s ih =>
    cases hca : chk a with
    | error e =>
      have hstep : checkAll chk (a :: s) = Except.error e := by
        simp [checkAll, hca]
      rw [hstep, List.forall_mem_cons, hca]
      simp [Except.isOk, Except.toBool]
    | ok u =>
      have hstep : checkAll chk (a :: s) = checkAll chk s := by
        simp [checkAll, hca]
      rw [hstep, ih, List.forall_mem_cons, hca]
      simp [Except.isOk, Except.toBool]

theorem checkIngredientA_isOk (c : Ingredient) :
    (checkIngredientA c).isOk = true
      ↔ ¬ c.maxActivePct > c.purityPct ∧ ¬ c.density ≤ 0 := by
  rw [checkIngredientA]
  by_cases h1 : c.maxActivePct > c.purityPct
  · simp [h1, Except.isOk, Except.toBool]
  · by_cases h2 : c.density ≤ 0 <;> simp [h1, h2, Except.isOk, Except.toBool]

theorem checkIngredientB_isOk (c : Ingredient) :
    (checkIngredientB c).isOk = true
      ↔ ¬ c.maxActivePct > c.purityPct
        ∧ ¬ (c.purityPct < 0 ∨ c.purityPct > 100
            ∨ c.maxActivePct < 0 ∨ c.maxActivePct > 100)
        ∧ ¬ c.density ≤ 0 := by
  rw [checkIngredientB]
  by_cases h1 : c.maxActivePct > c.purityPct
  · simp [h1, Except.isOk, Except.toBool]
  · by_cases h2 : c.purityPct < 0 ∨ c.purityPct > 100
        ∨ c.maxActivePct < 0 ∨ c.maxActivePct > 100
    · simp [h1, h2, Except.isOk, Except.toBool]
    · by_cases h3 : c.density ≤ 0 <;> simp [h1, h2, h3, Except.isOk, Except.toBool]

theorem validateA_isOk (cfg : List Ingredient) :
    (validateA cfg).isOk = true
      ↔ solventCount cfg ≤ 1
        ∧ ∀ c ∈ cfg, ¬ c.maxActivePct > c.purityPct ∧ ¬ c.density ≤ 0 := by
  rw [validateA]
  by_cases h : 1 < solventCount cfg
  · rw [if_pos h]
    constructor
    · intro hcon
      exact absurd hcon (by simp [Except.isOk, Except.toBool])
    · intro hcon
      exact absurd hcon.1 (by omega)
  · rw [if_neg h, checkAll_isOk_iff]
    simp only [checkIngredientA_isOk]
    exact ⟨fun hall => ⟨by omega, hall⟩, fun hcon => hcon.2⟩

theorem validateB_isOk (cfg : List Ingredient) :
    (validateB cfg).isOk = true
      ↔ solventCount cfg ≤ 1
        ∧ ∀ c ∈ cfg, ¬ c.maxActivePct > c.purityPct
            ∧ ¬ (c.purityPct < 0 ∨ c.purityPct > 100
                ∨ c.maxActivePct < 0 ∨ c.maxActivePct > 100)
            ∧ ¬ c.density ≤ 0 := by
  rw [validateB]
  by_cases h : 1 < solventCount cfg
  · rw [if_pos h]
    constructor
    · intro hcon
      exact absurd hcon (by simp [Except.isOk, Except.toBool])
    · intro hcon
      exact absurd hcon.1 (by omega)
  · rw [if_neg h, checkAll_isOk_iff]
    simp only [checkIngredientB_isOk]
    exact ⟨fun hall => ⟨by omega, hall⟩, fun hcon => hcon.2⟩

/-- C6 counterexample: variant A raises no error on a configuration the claim
says must raise one — a single ingredient (fewer than 2) whose purity and
max-active percentages are far outside [0, 100]; the full pipeline runs to
completion instead of failing. -/
theorem C6_counterexample :
    ([badIngredient].length < 2 ∧ badIngredient.purityPct > 100
        ∧ badIngredient.maxActivePct > 100)
      ∧ (validateA [badIngredient]).isOk = true
      ∧ (calculateDesignA [("X", badIngredient)] 1 100 1).isOk = true := by
  refine ⟨⟨by decide, by norm_num [badIngredient], by norm_num [badIngredient]⟩,
    by decide, by decide⟩

/-- C6 amended: both variants raise, before any lattice point is generated,
exactly when more than one solvent is flagged, some max-active percentage
exceeds its purity, or some density is nonpositive — variant B additionally
when a percentage lies outside [0, 100].  Neither variant checks the
ingredient count or the degree. -/
theorem C6_amended_validation (cfg : List Ingredient) :
    ((validateA cfg).isOk = true
        ↔ solventCount cfg ≤ 1
          ∧ ∀ c ∈ cfg, ¬ c.maxActivePct > c.purityPct ∧ ¬ c.density ≤ 0)
      ∧ ((validateB cfg).isOk = true
        ↔ solventCount cfg ≤ 1
          ∧ ∀ c ∈ cfg, ¬ c.maxActivePct > c.purityPct
              ∧ ¬ (c.purityPct < 0 ∨ c.purityPct > 100
                  ∨ c.maxActivePct < 0 ∨ c.maxActivePct > 100)
              ∧ ¬ c.density ≤ 0)
      ∧ (∀ (ncfg : List (String × Ingredient)) (m : ℕ) (total : ℚ) (k : ℕ),
          (validateA (ncfg.map Prod.snd)).isOk = false →
            (calculateDesignA ncfg m total k).isOk = false)
      ∧ (∀ (ncfg : List (String × Ingredient)) (m : ℕ) (total : ℚ) (k : ℕ),
          (validateB (ncfg.map Prod.snd)).isOk = false →
            (calculateDesignB ncfg m total k).isOk = false) := by
  refine ⟨validateA_isOk cfg, validateB_isOk cfg, ?_, ?_⟩
  · intro ncfg m total k h
    rw [calculateDesignA]
    cases hv : validateA (ncfg.map Prod.snd) with
    | error e => rfl
    | ok u =>
      rw [hv] at h
      exact absurd h (by simp [Except.isOk, Except.toBool])
  · intro ncfg m total k h
    rw [calculateDesignB]
    cases hv : validateB (ncfg.map Prod.snd) with
    | error e => rfl
    | ok u =>
      rw [hv] at h
      exact absurd h (by simp [Except.isOk, Except.toBool])

/-- C7: for a replicate factor k ≥ 1 the valid table is the original sequence
concatenated with itself k times, with k * |v| rows whose first |v| rows equal
the k = 1 run; any permutation of it (the randomize = True shuffle) has the
same multiset of rows; and formula numbers are assigned 1..N in final order
regardless of that order. -/
theorem C7_replication (v : List FormulaRow) (k : ℕ) (hk : 1 ≤ k) (_hv : v ≠ []) :
    applyReplicate k v = (List.replicate k v).flatten
      ∧ (applyReplicate k v).length = k * v.length
      ∧ (applyReplicate k v).take v.length = applyReplicate 1 v
      ∧ (∀ w : List FormulaRow, w.Perm (applyReplicate k v) →
          (w : Multiset FormulaRow)
            = ((applyReplicate k v : List FormulaRow) : Multiset FormulaRow))
      ∧ (∀ w : List FormulaRow,
          (numberRows w).map Prod.fst = List.range' 1 w.length
            ∧ (numberRows w).map Prod.snd = w) := by
  have hflat : applyReplicate k v = (List.replicate k v).flatten := by
    rw [applyReplicate]
    by_cases h : 1 < k
    · rw [if_pos h]
    · have hk1 : k = 1 := by omega
      subst hk1
      simp
  refine ⟨hflat, ?_, ?_, fun w hw => Multiset.coe_eq_coe.mpr hw, fun w =>
    ⟨List.enumFrom_map_fst 1 w, List.enumFrom_map_snd 1 w⟩⟩
  · rw [hflat, List.length_flatten, List.map_replicate, List.sum_replicate,
      smul_eq_mul]
  · rw [hflat]
    obtain ⟨k1, rfl⟩ : ∃ k1, k = k1 + 1 := ⟨k - 1, by omega⟩
    rw [List.replicate_succ, List.flatten_cons, List.take_left]
    rw [applyReplicate, if_neg (by omega)]

/-- C7 witness: duplicating a one-row table doubles its length. -/
theorem C7_replication_witness :
    (applyReplicate 2 [exRow]).length = 2 * [exRow].length :=
  (C7_replication [exRow] 2 (by decide) (List.cons_ne_nil _ _)).2.1

/-- C8 counterexample: the variant A valid-table schema does not follow the
claimed order (it has no per-ingredient active-mass columns and leads with the
weight-percent columns), and the removed tables lead with the rejection reason
instead of carrying it as a trailing column. -/
theorem C8_counterexample :
    finalColsA exNamedPlain ≠ claimedColsA exNamedPlain
      ∧ removedColsOf (finalColsB exNamed) ≠ claimedRemovedColsOf (finalColsB exNamed) := by
  constructor
  · decide
  · decide

/-- C8 amended: the variant B valid table is ordered formula number, product
mass, product volume, active mass (composite solvent name), impurity mass,
product weight-percent, active weight-percent (composite solvent name), then
the summary columns; variant A is ordered formula number, product
weight-percent, active weight-percent, product mass, product volume, then the
summary columns, then (with a solvent) the two extra solvent columns, and has
no per-ingredient active-mass columns; both removed tables lead with the
rejection reason and drop the formula number. -/
theorem C8_amended_columns (cfg : List (String × Ingredient)) :
    (finalColsB cfg
        = ("Formula Number"
            :: (colMass (cfg.map Prod.fst) ++ colVol (cfg.map Prod.fst)
              ++ cfg.map activeMassColB ++ colImpMass (cfg.map Prod.fst)
              ++ colProdWt (cfg.map Prod.fst) ++ cfg.map activeWtColB))
          ++ summCols)
      ∧ (finalColsA cfg
        = ("Formula Number"
            :: (colProdWt (cfg.map Prod.fst) ++ colActiveWt (cfg.map Prod.fst)
              ++ colMass (cfg.map Prod.fst) ++ colVol (cfg.map Prod.fst)))
          ++ summCols
          ++ (if hasSolvent (cfg.map Prod.snd) then
                ["Extra Solvent from Ingredients [g]", "Total Solvent [g]"] else []))
      ∧ (removedColsOf (finalColsA cfg)).head? = some "Reason Removed"
      ∧ (removedColsOf (finalColsB cfg)).head? = some "Reason Removed"
      ∧ (finalColsB cfg).length = 1 + 6 * cfg.length + 3
      ∧ (finalColsA cfg).length
          = 1 + 4 * cfg.length + 3
            + (if hasSolvent (cfg.map Prod.snd) then 2 else 0) := by
  refine ⟨rfl, rfl, rfl, rfl, ?_, ?_⟩
  · simp [finalColsB, colMass, colVol, colImpMass, colProdWt, summCols]
    omega
  · cases hs : hasSolvent (cfg.map Prod.snd) <;>
      simp [finalColsA, colProdWt, colActiveWt, colMass, colVol, summCols, hs] <;>
      omega

end SimplexDesign
